import Mathlib

/-!
Verification of the filter/expression compiler of the clickhouse-orm
query builder (src/models/query-builder.ts together with the operator
table and aggregation operators).

The TypeScript code is shallowly embedded: JavaScript values that can
appear as condition operands become the inductive type `JValue`,
conditions become `Condition`, the statement builder becomes the
structure `QueryBuilder`, and the fluent combinator `Q` becomes
`QState`.  JavaScript-specific behaviour that the source relies on is
modelled explicitly: `String.prototype.split`, `Array.prototype.join`
element conversion, template-literal stringification, truthiness of
`0` / `''` / `undefined`, and the ECMAScript own-property enumeration
order that `Object.values` / `Object.entries` use (integer-like keys
ascending first, remaining string keys in insertion order).
-/

namespace ChOrm

/-- Join a list of strings with a separator, exactly as
`Array.prototype.join` assembles the already-converted element
strings: empty list gives the empty string. -/
def joinSep (sep : String) : List String → String
  | [] => ""
  | [x] => x
  | x :: xs => x ++ sep ++ joinSep sep xs

theorem strEq_of_data (a b : String) (h : a.data = b.data) : a = b := by
  cases a
  cases b
  exact congrArg String.mk h

theorem strData_append (a b : String) : (a ++ b).data = a.data ++ b.data := by
  cases a
  cases b
  rfl

/-- SQL operator tokens, from `enum SqlOperators` in the operator table. -/
inductive SqlOp where
  | eq | ne | gt | lt | gte | lte | like | inOp | isOp | nullOp | hasAny
deriving DecidableEq, Repr

def SqlOp.token : SqlOp → String
  | .eq => "="
  | .ne => "!="
  | .gt => ">"
  | .lt => "<"
  | .gte => ">="
  | .lte => "<="
  | .like => "LIKE"
  | .inOp => "IN"
  | .isOp => "IS"
  | .nullOp => "NULL"
  | .hasAny => "HAS ANY"

/-- Logical joiners, from `enum LogicalOperators`. -/
inductive LogicalOp where
  | and | or | not
deriving DecidableEq, Repr

def LogicalOp.token : LogicalOp → String
  | .and => "AND"
  | .or => "OR"
  | .not => "NOT"

/-- The `Operator` union type `SqlOperators | LogicalOperators` of the
source: a condition's `operator` field can hold either. -/
inductive Operator where
  | sql (o : SqlOp)
  | logical (l : LogicalOp)
deriving DecidableEq, Repr

def Operator.token : Operator → String
  | .sql o => o.token
  | .logical l => l.token

/-- The `FIELD_TO_SQL_OPERATOR` record: maps a field-operator suffix
string to its SQL operator; absent keys give `none` (JS `undefined`). -/
def FIELD_TO_SQL_OPERATOR (s : String) : Option SqlOp :=
  if s = "" then some .eq
  else if s = "__gt" then some .gt
  else if s = "__lt" then some .lt
  else if s = "__gte" then some .gte
  else if s = "__lte" then some .lte
  else if s = "__ne" then some .ne
  else if s = "__icontains" then some .like
  else if s = "__in" then some .inOp
  else if s = "__has_any" then some .hasAny
  else none

/-- Model of JavaScript `field.split('__')` on the character list of the
string: splits on every non-overlapping occurrence of the two-character
delimiter, scanning left to right. -/
def splitOnUU : List Char → List (List Char)
  | [] => [[]]
  | [c] => [[c]]
  | c1 :: c2 :: rest =>
    if c1 = '_' ∧ c2 = '_' then [] :: splitOnUU rest
    else
      match splitOnUU (c2 :: rest) with
      | s :: ss => (c1 :: s) :: ss
      | [] => [[c1]]

/-- Whether the character list contains the delimiter `__` anywhere. -/
def hasUU : List Char → Bool
  | c1 :: c2 :: rest => (c1 = '_' && c2 = '_') || hasUU (c2 :: rest)
  | _ => false

/-- The source method `BaseQueryBuilder.parseFieldAndOperator`:
destructures the first two segments of `field.split('__')`; a missing
or empty second segment (JS falsy `lookup`) selects the empty suffix,
otherwise the suffix is looked up with fallback to `EQ`. -/
def parseFieldAndOperator (field : String) : String × SqlOp :=
  let parts := (splitOnUU field.data).map (fun cs => (⟨cs⟩ : String))
  let fieldName := parts.headD ""
  let fieldOperator :=
    match parts[1]? with
    | none => ""
    | some l => if l = "" then "" else "__" ++ l
  (fieldName, (FIELD_TO_SQL_OPERATOR fieldOperator).getD SqlOp.eq)

/-- Modelled from the spec: the specification's field/operator resolver
splits on the FIRST occurrence of the delimiter only, so the candidate
suffix is everything after the first `__`; an unrecognized suffix falls
back to `EQ`.  Used to compare the spec's algorithm with the source's
`parseFieldAndOperator`. -/
def breakOnFirstUU : List Char → Option (List Char × List Char)
  | [] => none
  | [_] => none
  | c1 :: c2 :: rest =>
    if c1 = '_' ∧ c2 = '_' then some ([], rest)
    else (breakOnFirstUU (c2 :: rest)).map (fun p => (c1 :: p.1, p.2))

/-- Modelled from the spec: resolver that splits at the first delimiter
occurrence (see `breakOnFirstUU`). -/
def parseFieldAndOperatorFirstSplit (field : String) : String × SqlOp :=
  match breakOnFirstUU field.data with
  | none => (field, SqlOp.eq)
  | some (base, suffix) =>
    ((⟨base⟩ : String),
      (FIELD_TO_SQL_OPERATOR ("__" ++ (⟨suffix⟩ : String))).getD SqlOp.eq)

mutual
/-- JavaScript values that can appear as a condition operand in the
source: `null`, `undefined`, booleans, numbers (the claims only need
integral ones), strings, plain arrays, plain objects (nested filter
values), and arrays of conditions (the `value` of a nested condition).
Sub-query operands (`value instanceof QueryBuilder`) are outside the
modelled value domain; no claim involves them. -/
inductive JValue where
  | jnull
  | jundef
  | jbool (b : Bool)
  | jnum (n : Int)
  | jstr (s : String)
  | jarr (elems : List JValue)
  | jobj (fields : List (String × JValue))
  | jconds (conds : List Condition)

/-- The `Condition` record type of the source. `groupId` is optional
(JS `undefined` when absent) and `isNested` defaults to `false`. -/
inductive Condition where
  | mk (field : String) (operator : Operator) (value : JValue)
       (logicalOperator : LogicalOp) (groupId : Option Nat) (isNested : Bool)
end

def Condition.field : Condition → String
  | ⟨f, _, _, _, _, _⟩ => f

def Condition.operator : Condition → Operator
  | ⟨_, o, _, _, _, _⟩ => o

def Condition.value : Condition → JValue
  | ⟨_, _, v, _, _, _⟩ => v

def Condition.logicalOperator : Condition → LogicalOp
  | ⟨_, _, _, l, _, _⟩ => l

def Condition.groupId : Condition → Option Nat
  | ⟨_, _, _, _, g, _⟩ => g

def Condition.isNested : Condition → Bool
  | ⟨_, _, _, _, _, n⟩ => n

mutual
/-- ECMAScript `ToString` as used by template literals: `null` prints
as `"null"`, `undefined` as `"undefined"`, arrays join their elements
with a comma, plain objects print as `"[object Object]"`. -/
def jvalueToString : JValue → String
  | .jnull => "null"
  | .jundef => "undefined"
  | .jbool b => if b then "true" else "false"
  | .jnum n => toString n
  | .jstr s => s
  | .jarr xs => arrJoinSep "," xs
  | .jobj _ => "[object Object]"
  | .jconds cs => joinSep "," (cs.map (fun _ => "[object Object]"))

/-- The element conversion of `Array.prototype.join`: `null` and
`undefined` become the empty string, everything else uses `ToString`. -/
def arrJoinSep (sep : String) : List JValue → String
  | [] => ""
  | x :: xs =>
    let s :=
      match x with
      | .jnull => ""
      | .jundef => ""
      | v => jvalueToString v
    match xs with
    | [] => s
    | _ => s ++ sep ++ arrJoinSep sep xs
end

/-- Element conversion used by `Array.prototype.join`, as a standalone
function (agrees with the inlined conversion inside `arrJoinSep`). -/
def jelemStr : JValue → String
  | .jnull => ""
  | .jundef => ""
  | v => jvalueToString v

/-- The source method `BaseQueryBuilder.formatValue`. Order of checks
follows the source: nullish, string, array, then `String(value)`.
Arrays of conditions are JS arrays too, hence the `jconds` cases. -/
def formatValue : JValue → String
  | .jnull => "NULL"
  | .jundef => "NULL"
  | .jstr s => "'" ++ s ++ "'"
  | .jarr [] => "(NULL)"
  | .jarr xs => "('" ++ arrJoinSep "', '" xs ++ "')"
  | .jconds [] => "(NULL)"
  | .jconds cs => "('" ++ joinSep "', '" (cs.map (fun _ => "[object Object]")) ++ "')"
  | v => jvalueToString v

/-- The source method `BaseQueryBuilder.buildBaseCondition`.  The
`value instanceof QueryBuilder` sub-query branches are omitted because
sub-query operands are outside the modelled value domain.  `jarr` and
`jconds` both answer `Array.isArray` with `true`. -/
def buildBaseCondition (c : Condition) : String :=
  if c.operator = .sql .inOp then
    match c.value with
    | .jarr [] => c.field ++ " IN (NULL)"
    | .jarr xs => c.field ++ " IN ('" ++ arrJoinSep "', '" xs ++ "')"
    | .jconds [] => c.field ++ " IN (NULL)"
    | .jconds cs =>
      c.field ++ " IN ('" ++ joinSep "', '" (cs.map (fun _ => "[object Object]")) ++ "')"
    | v => c.field ++ " IN " ++ jvalueToString v
  else if c.operator = .sql .hasAny then
    match c.value with
    | .jarr [] => "hasAny(" ++ c.field ++ ", [])"
    | .jarr xs => "hasAny(" ++ c.field ++ ", ['" ++ arrJoinSep "', '" xs ++ "'])"
    | .jconds [] => "hasAny(" ++ c.field ++ ", [])"
    | .jconds cs =>
      "hasAny(" ++ c.field ++ ", ['"
        ++ joinSep "', '" (cs.map (fun _ => "[object Object]")) ++ "'])"
    | v => "hasAny(" ++ c.field ++ ", " ++ jvalueToString v ++ ")"
  else
    match c.value with
    | .jnull => c.field ++ " IS NULL"
    | .jundef => c.field ++ " IS NULL"
    | v => c.field ++ " " ++ c.operator.token ++ " " ++ formatValue v

mutual
/-- The source method `QueryBuilder.buildCondition`.  A condition with
`isNested` and an array value renders its member conditions joined by
its own `operator` token and parenthesized (or the literal `NULL` when
the joined text is empty); a `NOT` logical operator wraps the result.
Leaves delegate to `buildBaseCondition` and are parenthesized.  An
`isNested` condition whose value is a non-condition array cannot be
produced by the builder API and is handled by the leaf branch. -/
def buildCondition : Condition → String
  | ⟨_, op, .jconds cs, lop, _, true⟩ =>
    let nestedConditions := joinSep (" " ++ op.token ++ " ") (buildCondList cs)
    let baseCondition := if nestedConditions = "" then "NULL" else "(" ++ nestedConditions ++ ")"
    if lop = .not then "(NOT " ++ baseCondition ++ ")" else baseCondition
  | c =>
    let baseCondition := buildBaseCondition c
    if c.logicalOperator = .not then "(NOT (" ++ baseCondition ++ "))"
    else "(" ++ baseCondition ++ ")"

/-- Maps `buildCondition` over a member list (the `condition.value.map`
of the source). -/
def buildCondList : List Condition → List String
  | [] => []
  | c :: cs => buildCondition c :: buildCondList cs
end

/-- One step of the `reduce` in `QueryBuilder.buildWhereClause`: push a
condition onto its group's member list inside the accumulator object,
creating the property at the end when the key is new (JS object
property insertion keeps the position of an existing key). -/
def pushGroup (acc : List (Nat × List Condition)) (gid : Nat) (c : Condition) :
    List (Nat × List Condition) :=
  match acc with
  | [] => [(gid, [c])]
  | (k, cs) :: rest =>
    if k = gid then (k, cs ++ [c]) :: rest else (k, cs) :: pushGroup rest gid c

/-- The group key of a condition: `condition.groupId || 0` (JS
`undefined` and `0` both give `0`). -/
def condGid (c : Condition) : Nat :=
  c.groupId.getD 0

/-- The accumulated groups object of `buildWhereClause`:
`conditions.reduce(...)` with `groupId || 0` as key. -/
def groupsObj (conditions : List Condition) : List (Nat × List Condition) :=
  conditions.foldl (fun acc c => pushGroup acc (condGid c) c) []

/-- ECMAScript `Object.values` on an object whose keys are all
integer-like (stringified numbers): own-property enumeration lists
integer-like keys in ascending numeric order, regardless of insertion
order. -/
def objectValuesNumeric (acc : List (Nat × List Condition)) : List (List Condition) :=
  (List.insertionSort (fun a b : Nat × List Condition => a.1 ≤ b.1) acc).map (fun p => p.2)

/-- The per-group rendering lambda inside `buildWhereClause`: a single
member renders verbatim via `buildCondition`; several members join with
the FIRST member's `logicalOperator` token and are parenthesized.
Groups produced by the `reduce` are never empty. -/
def renderGroup : List Condition → String
  | [] => ""
  | [c] => buildCondition c
  | c :: rest =>
    "(" ++ joinSep (" " ++ c.logicalOperator.token ++ " ")
      ((c :: rest).map buildCondition) ++ ")"

/-- The source method `QueryBuilder.buildWhereClause`. -/
def buildWhereClause (conditions : List Condition) : String :=
  if conditions.isEmpty then ""
  else
    let groupClauses := (objectValuesNumeric (groupsObj conditions)).map renderGroup
    if 1 < groupClauses.length then "(" ++ joinSep " OR " groupClauses ++ ")"
    else groupClauses.headD ""

/-- Duplicate-free list of group keys in first-seen (insertion) order. -/
def firstSeenKeys (acc : List Nat) : List Nat :=
  acc.foldl (fun seen g => if g ∈ seen then seen else seen ++ [g]) []

/-- Modelled from the spec: a WHERE-clause builder that renders the
groups in the order their GroupID first appears in the accumulated
condition list (insertion order, never re-sorted), as the
specification's tie-break rule demands; identical to the source
`buildWhereClause` in every other respect. -/
def buildWhereClauseInsertionOrder (conditions : List Condition) : String :=
  if conditions.isEmpty then ""
  else
    let gids := firstSeenKeys (conditions.map condGid)
    let groupClauses :=
      gids.map (fun g => renderGroup (conditions.filter (fun c => condGid c = g)))
    if 1 < groupClauses.length then "(" ++ joinSep " OR " groupClauses ++ ")"
    else groupClauses.headD ""

/-- A value inside a `NestedSortData` object: a numeric sort direction
or a further nested object. -/
inductive SortVal where
  | num (n : Int)
  | nested (fields : List (String × SortVal))
deriving Repr

/-- JS object property assignment `obj[k] = v` on an insertion-ordered
association list: an existing key keeps its position and gets the new
value, a new key is appended. -/
def jsSetAssoc {κ α : Type} [DecidableEq κ] (l : List (κ × α)) (k : κ) (v : α) :
    List (κ × α) :=
  match l with
  | [] => [(k, v)]
  | (k1, v1) :: rest =>
    if k1 = k then (k, v) :: rest else (k1, v1) :: jsSetAssoc rest k v

/-- The source method `QueryBuilder.flattenSortData`, with the result
object threaded as an accumulator: a nested object value is flattened
recursively and merged in with `Object.assign` (a fold of property
assignments); a direct direction is assigned at the dotted path.  The
source's inner `typeof value === 'number'` test inside the object
branch is dead code (the value there is an object) and is omitted. -/
def flattenSortInto (acc : List (String × Int)) (pfx : String) :
    List (String × SortVal) → List (String × Int)
  | [] => acc
  | (key, value) :: rest =>
    let fieldPath := if pfx = "" then key else pfx ++ "." ++ key
    match value with
    | .nested fields =>
      let nestedFlattened := flattenSortInto [] fieldPath fields
      flattenSortInto
        (nestedFlattened.foldl (fun a kv => jsSetAssoc a kv.1 kv.2) acc) pfx rest
    | .num n => flattenSortInto (jsSetAssoc acc fieldPath n) pfx rest

/-- Entry point of `flattenSortData` (empty accumulator, empty path
prefix). -/
def flattenSortData (sortData : List (String × SortVal)) : List (String × Int) :=
  flattenSortInto [] "" sortData

/-- Digits-to-number conversion for integer-like property keys. -/
def digitsToNat (cs : List Char) : Nat :=
  cs.foldl (fun n c => 10 * n + (c.toNat - 48)) 0

/-- Whether a string is a canonical array-index property key (the keys
ECMAScript enumerates in ascending numeric order): nonempty, all
digits, no leading zero unless it is exactly "0", below 2^32 - 1. -/
def isArrayIndexStr (s : String) : Bool :=
  match s.data with
  | [] => false
  | ['0'] => true
  | c :: cs => c.isDigit && c ≠ '0' && cs.all (fun d => d.isDigit)
      && digitsToNat (c :: cs) < 4294967295

/-- ECMAScript `Object.entries` enumeration order for string keys:
array-index keys ascending first, remaining keys in insertion order. -/
def jsEntriesStr (l : List (String × Int)) : List (String × Int) :=
  (List.insertionSort (fun a b => digitsToNat a.1.data ≤ digitsToNat b.1.data)
      (l.filter (fun kv => isArrayIndexStr kv.1)))
    ++ l.filter (fun kv => !isArrayIndexStr kv.1)

/-- Storage engine kinds.  Modelled from the spec: the engine
enumeration lives in `utils/engines`, which is not among the provided
sources; only the distinction between the replacing variant and the
rest is observable in the query builder (`final()` validation). -/
inductive Engine where
  | mergeTree
  | replacingMergeTree
deriving DecidableEq, Repr

/-- The slice of a model's `tableDefinition` that the query builder
reads: table name and storage engine. -/
structure Model where
  tableName : String
  engine : Engine

/-- State of a `QueryBuilder` instance (the fields assigned by the
constructor).  `connectionConfig` and the inherited `DataRetrieval`
execution state are not modelled: no claim observes them. -/
structure QueryBuilder where
  model : Model
  whereConditions : List Condition
  excludeConditions : List Condition
  _offset : Int
  _limit : Option Int
  _project : String
  _final : Bool
  _sort : List (String × SortVal)

/-- The options object accepted by the `QueryBuilder` constructor;
`none` is an absent (or `undefined`) property. -/
structure BuilderOptions where
  whereConditions : Option (List Condition) := none
  excludeConditions : Option (List Condition) := none
  offsetO : Option Int := none
  limitO : Option Int := none
  projectO : Option String := none
  sortO : Option (List (String × SortVal)) := none

/-- The `QueryBuilder` constructor: `whereConditions || []`,
`offset || 0` (so an explicit 0 stays 0), `limit` taken as-is,
`project || '*'` (the empty string is falsy and becomes `'*'`),
`_sort || {}`, and `_final` initialized to `false`. -/
def mkQueryBuilder (model : Model) (opts : BuilderOptions) : QueryBuilder :=
  { model := model
  , whereConditions := opts.whereConditions.getD []
  , excludeConditions := opts.excludeConditions.getD []
  , _offset := opts.offsetO.getD 0
  , _limit := opts.limitO
  , _project :=
      match opts.projectO with
      | some p => if p = "" then "*" else p
      | none => "*"
  , _final := false
  , _sort := opts.sortO.getD []
  }

def QueryBuilder.tableName (qb : QueryBuilder) : String := qb.model.tableName

/-- The private `clone` method: re-runs the constructor on the current
fields overridden by the given options.  Note that `_final` is not
among the copied fields, so every clone resets it to `false`. -/
def QueryBuilder.clone (qb : QueryBuilder) (opts : BuilderOptions) : QueryBuilder :=
  mkQueryBuilder qb.model
    { whereConditions := some (opts.whereConditions.getD qb.whereConditions)
    , excludeConditions := some (opts.excludeConditions.getD qb.excludeConditions)
    , offsetO := some (opts.offsetO.getD qb._offset)
    , limitO := opts.limitO <|> qb._limit
    , projectO := some (opts.projectO.getD qb._project)
    , sortO := some (opts.sortO.getD qb._sort)
    }

/-- An item of a `project` call: a plain column string, or an alias
object of which `Object.entries(field)[0]` is taken (modelled with the
first entry explicit so the object is never empty). -/
inductive ProjectItem where
  | str (s : String)
  | aliasObj (k v : String) (rest : List (String × String))

def projectItemSql : ProjectItem → String
  | .str s => s
  | .aliasObj k v _ => k ++ " as " ++ v

def QueryBuilder.project (qb : QueryBuilder) (projects : List ProjectItem) :
    QueryBuilder :=
  qb.clone { projectO := some (joinSep ", " (projects.map projectItemSql)) }

def QueryBuilder.offset (qb : QueryBuilder) (n : Int) : QueryBuilder :=
  qb.clone { offsetO := some n }

def QueryBuilder.limit (qb : QueryBuilder) (n : Int) : QueryBuilder :=
  qb.clone { limitO := some n }

/-- Whether a value is a plain object in the sense of
`QueryBuilder.isNestedObject`: `typeof value === 'object'`, not null,
not an array, not a `QueryBuilder` (sub-query operands are outside the
modelled value domain, see `JValue`). -/
def JValue.isObjB : JValue → Bool
  | .jobj _ => true
  | _ => false

/-- The source method `QueryBuilder.processValue`: `LIKE` wraps the
template-stringified value in `%...%`; `IN` passes arrays (and would
pass sub-query builders) through and wraps scalars in a one-element
array; other operators leave the value alone. -/
def processValue (value : JValue) (op : SqlOp) : JValue :=
  if op = .like then .jstr ("%" ++ jvalueToString value ++ "%")
  else if op = .inOp then
    match value with
    | .jarr xs => .jarr xs
    | .jconds cs => .jconds cs
    | v => .jarr [v]
  else value

/-- The source method `QueryBuilder.processNestedObject`: walks a
nested plain-object filter value, resolving each key's operator suffix,
extending the dotted path, recursing into plain-object values and
emitting a leaf condition otherwise. -/
def processNestedObject (pfx : String) :
    List (String × JValue) → List Condition
  | [] => []
  | (key, val) :: rest =>
    let p := parseFieldAndOperator key
    let fullField := if pfx = "" then p.1 else pfx ++ "." ++ p.1
    (match val with
     | .jobj fields => processNestedObject fullField fields
     | v => [⟨fullField, .sql p.2, processValue v p.2, .and, none, false⟩])
      ++ processNestedObject pfx rest

/-- The source method `QueryBuilder.parseFilterCondition` (with
`createSimpleCondition` inlined as in the source's else-branch): a
plain-object value is flattened via `processNestedObject` under the
parsed base name, anything else becomes one simple condition. -/
def parseFilterCondition (field : String) (value : JValue) : List Condition :=
  let p := parseFieldAndOperator field
  match value with
  | .jobj fields => processNestedObject p.1 fields
  | v => [⟨p.1, .sql p.2, processValue v p.2, .and, none, false⟩]

/-- The `filter` overload for a plain conditions object. -/
def QueryBuilder.filterObj (qb : QueryBuilder) (conditions : List (String × JValue)) :
    QueryBuilder :=
  let newConditions := conditions.flatMap (fun kv => parseFilterCondition kv.1 kv.2)
  qb.clone { whereConditions := some (qb.whereConditions ++ newConditions) }

/-- The `filter` overload for a `Q` instance: appends the instance's
accumulated `whereConditions`. -/
def QueryBuilder.filterQ (qb : QueryBuilder) (qConds : List Condition) : QueryBuilder :=
  qb.clone { whereConditions := some (qb.whereConditions ++ qConds) }

/-- The `exclude` overload for a plain object: each entry becomes a
condition with operator `NE` and the raw value (no suffix parsing, no
value pre-processing). -/
def QueryBuilder.excludeObj (qb : QueryBuilder) (conditions : List (String × JValue)) :
    QueryBuilder :=
  let newConditions : List Condition :=
    conditions.map (fun kv => ⟨kv.1, .sql .ne, kv.2, .and, none, false⟩)
  qb.clone { excludeConditions := some (qb.excludeConditions ++ newConditions) }

/-- The `exclude` overload for a `Q` instance. -/
def QueryBuilder.excludeQ (qb : QueryBuilder) (qConds : List Condition) : QueryBuilder :=
  qb.clone { excludeConditions := some (qb.excludeConditions ++ qConds) }

/-- The `sort` mutator: object spread `{...this._sort, ...sortData}`,
modelled as a fold of property assignments over the new entries. -/
def QueryBuilder.sortM (qb : QueryBuilder) (sortData : List (String × SortVal)) :
    QueryBuilder :=
  qb.clone
    { sortO := some (sortData.foldl (fun a kv => jsSetAssoc a kv.1 kv.2) qb._sort) }

/-- The `final` mutator.  It does NOT clone: on a replacing engine it
sets `_final` on the receiver itself and returns the receiver; on any
other engine it throws. -/
def QueryBuilder.finalM (qb : QueryBuilder) : Except String QueryBuilder :=
  if qb.model.engine = Engine.replacingMergeTree then
    Except.ok { qb with _final := true }
  else Except.error "Final is only supported for ReplacingMergeTree engine"

/-- The truthiness test `if (this._limit)`: `undefined` and `0` are
falsy, every other number is truthy. -/
def limitTruthy : Option Int → Bool
  | none => false
  | some n => n ≠ 0

/-- The ORDER BY fragment appended by `buildQuery` (the inner
`buildSort` closure), including its leading space. -/
def QueryBuilder.buildSortFragment (qb : QueryBuilder) : String :=
  if qb._sort.isEmpty then ""
  else
    " ORDER BY " ++ joinSep ", "
      ((jsEntriesStr (flattenSortData qb._sort)).map
        (fun kv => kv.1 ++ " " ++ (if kv.2 = -1 then "DESC" else "ASC")))

/-- The LIMIT fragment appended by `buildQuery` (empty when `_limit` is
falsy). -/
def QueryBuilder.limitClause (qb : QueryBuilder) : String :=
  if limitTruthy qb._limit then " LIMIT " ++ toString (qb._limit.getD 0) else ""

/-- The OFFSET fragment appended by `buildQuery` (empty when `_offset`
is falsy). -/
def QueryBuilder.offsetClause (qb : QueryBuilder) : String :=
  if qb._offset ≠ 0 then " OFFSET " ++ toString qb._offset else ""

/-- The source method `QueryBuilder.buildQuery`. -/
def QueryBuilder.buildQuery (qb : QueryBuilder) : String :=
  let conditions := qb.whereConditions ++ qb.excludeConditions
  let whereClause := buildWhereClause conditions
  let query := "SELECT " ++ qb._project ++ " FROM " ++ qb.tableName ++ " "
    ++ (if qb._final then "FINAL " else "")
  let query := if whereClause = "" then query else query ++ "WHERE " ++ whereClause
  let query := query ++ qb.buildSortFragment
  let query := query ++ qb.limitClause
  query ++ qb.offsetClause

/-- State of a `Q` instance: its accumulated condition list and the
per-instance group counter. -/
structure QState where
  whereConditions : List Condition
  groupCounter : Nat

/-- A fresh `new Q()`. -/
def qNew : QState := ⟨[], 0⟩

/-- The source method `Q.parseConditionField`: resolves the key's
suffix, wraps the value for `LIKE` (only — unlike the statement
builder, `Q` does not coerce `IN` scalars here) and records the
instance's current group counter as the condition's `groupId`. -/
def qParseConditionField (counter : Nat) (field : String) (value : JValue) :
    Condition :=
  let p := parseFieldAndOperator field
  let processedValue :=
    if p.2 = SqlOp.like then JValue.jstr ("%" ++ jvalueToString value ++ "%")
    else value
  ⟨p.1, .sql p.2, processedValue, .and, some counter, false⟩

/-- The inner `processNestedObject` of `Q.parseNestedField`: plain
object values become an extra nested AND wrapper around their children;
leaves resolve the suffix, extend the dotted path and pre-process the
value for `LIKE` and `IN`. None of these conditions carries a
`groupId`. -/
def qProcessNestedObject (pfx : String) :
    List (String × JValue) → List Condition
  | [] => []
  | (key, val) :: rest =>
    (match val with
     | .jobj fields =>
       let childConditions := qProcessNestedObject (pfx ++ "." ++ key) fields
       if childConditions.isEmpty then []
       else [⟨"", .logical .and, .jconds childConditions, .and, none, true⟩]
     | v =>
       let p := parseFieldAndOperator key
       let actualField := if pfx = "" then p.1 else pfx ++ "." ++ p.1
       let processedValue :=
         if p.2 = SqlOp.like then JValue.jstr ("%" ++ jvalueToString v ++ "%")
         else if p.2 = SqlOp.inOp then
           match v with
           | .jarr xs => JValue.jarr xs
           | .jconds cs => JValue.jconds cs
           | w => JValue.jarr [w]
         else v
       [⟨actualField, .sql p.2, processedValue, .and, none, false⟩])
      ++ qProcessNestedObject pfx rest

/-- The source method `Q.parseNestedField`: flattens the nested object
under the base field name and, when anything came out, wraps the result
in a single nested AND condition. -/
def qParseNestedField (field : String) (fields : List (String × JValue)) :
    List Condition :=
  let nestedConditions := qProcessNestedObject field fields
  if nestedConditions.isEmpty then []
  else [⟨"", .logical .and, .jconds nestedConditions, .and, none, true⟩]

/-- An argument element of a `Q.and` / `Q.or` / `Q.not` call: a
sub-`Q` instance or a plain filter object. -/
inductive QInput where
  | qsub (q : QState)
  | obj (fields : List (String × JValue))

/-- The per-entry lambda of the `flatMap` inside `Q.addCondition`'s
plain-object branch: a plain-object value goes through
`parseNestedField`, anything else becomes one `parseConditionField`
leaf. -/
def qObjEntryConds (counter : Nat) (kv : String × JValue) : List Condition :=
  match kv.2 with
  | .jobj inner => qParseNestedField kv.1 inner
  | v => [qParseConditionField counter kv.1 v]

/-- The source method `Q.addCondition`: a sub-`Q` is wrapped as one
nested condition whose operator is the sub-instance's first condition's
`logicalOperator` (falling back to AND when it has none); a plain
object is flattened entry-wise and wrapped as one nested condition
whose operator is the invoked combinator (downgraded to AND for NOT). -/
def qAddCondition (st : QState) (input : QInput) (lop : LogicalOp) (gid : Nat) :
    QState :=
  match input with
  | .qsub q =>
    let op := ((q.whereConditions.head?).map (fun c => c.logicalOperator)).getD .and
    { st with whereConditions :=
        st.whereConditions ++ [⟨"", .logical op, .jconds q.whereConditions, lop, some gid, true⟩] }
  | .obj fields =>
    let nestedConditions := fields.flatMap (qObjEntryConds st.groupCounter)
    let op := if lop = .not then LogicalOp.and else lop
    { st with whereConditions :=
        st.whereConditions ++ [⟨"", .logical op, .jconds nestedConditions, lop, some gid, true⟩] }

/-- The source method `Q.handleConditions`: mints a new GroupID by
incrementing the counter, then adds each element of the argument (an
array is iterated, a single argument is added once — modelled as a
one-element list). -/
def qHandleConditions (st : QState) (conditions : List QInput) (lop : LogicalOp) :
    QState :=
  let gid := st.groupCounter + 1
  let st1 := { st with groupCounter := gid }
  conditions.foldl (fun s i => qAddCondition s i lop gid) st1

def qAnd (st : QState) (conditions : List QInput) : QState :=
  qHandleConditions st conditions .and

def qOr (st : QState) (conditions : List QInput) : QState :=
  qHandleConditions st conditions .or

def qNot (st : QState) (condition : QInput) : QState :=
  qHandleConditions st [condition] .not

mutual
/-- Aggregation operator nodes, from the aggregation operators module:
the function-call classes `Sum`, `Avg`, `Count`, `Min`, `Max` and the
`ArithmeticOperator` class. Every node carries an optional alias. -/
inductive AggNode where
  | sum (field : AggArg) (als : Option String)
  | avg (field : AggArg) (als : Option String)
  | count (field : AggArg) (als : Option String)
  | minOp (field : AggArg) (als : Option String)
  | maxOp (field : AggArg) (als : Option String)
  | arith (left : AggNode) (op : String) (right : AggNode) (als : Option String)

/-- The `field` member of an aggregation operator: a column name string
or a nested aggregation operator. -/
inductive AggArg where
  | fieldName (s : String)
  | node (a : AggNode)
end

mutual
/-- The `getSql` methods of the aggregation operator classes.  Only
`ArithmeticOperator.getSql` appends its own alias. -/
def aggGetSql : AggNode → String
  | .sum f _ => "SUM(" ++ aggFieldSql f ++ ")"
  | .avg f _ => "AVG(" ++ aggFieldSql f ++ ")"
  | .count f _ => "COUNT(" ++ aggFieldSql f ++ ")"
  | .minOp f _ => "MIN(" ++ aggFieldSql f ++ ")"
  | .maxOp f _ => "MAX(" ++ aggFieldSql f ++ ")"
  | .arith l op r als =>
    let sql := "(" ++ aggGetSql l ++ " " ++ op ++ " " ++ aggGetSql r ++ ")"
    match als with
    | some a => if a = "" then sql else sql ++ " as " ++ a
    | none => sql

/-- The `getFieldSql` helper of the base class. -/
def aggFieldSql : AggArg → String
  | .fieldName s => s
  | .node a => aggGetSql a
end

def aggAlias : AggNode → Option String
  | .sum _ a => a
  | .avg _ a => a
  | .count _ a => a
  | .minOp _ a => a
  | .maxOp _ a => a
  | .arith _ _ _ a => a

/-- The `aggregate` mutator: replaces the projection with the
comma-joined compiled aggregations, each aliased by `agg.alias || key`
(an empty-string alias is falsy and falls back to the key). -/
def QueryBuilder.aggregate (qb : QueryBuilder) (aggregations : List (String × AggNode)) :
    QueryBuilder :=
  let aggregationSql := joinSep ", " (aggregations.map (fun kv =>
    let a :=
      match aggAlias kv.2 with
      | some a => if a = "" then kv.1 else a
      | none => kv.1
    aggGetSql kv.2 ++ " as " ++ a))
  qb.clone { projectO := some aggregationSql }

/-- One call of a `QueryBuilder` mutator from the claim's list, with
its argument. -/
inductive MutatorCall where
  | filterObjCall (conditions : List (String × JValue))
  | filterQCall (qConds : List Condition)
  | excludeObjCall (conditions : List (String × JValue))
  | excludeQCall (qConds : List Condition)
  | projectCall (projects : List ProjectItem)
  | limitCall (n : Int)
  | offsetCall (n : Int)
  | sortCall (sortData : List (String × SortVal))
  | aggregateCall (aggregations : List (String × AggNode))
  | finalCall

/-- Result of a mutator call: the value the method returns and the
state of the receiver after the call. -/
structure MutResult where
  returned : QueryBuilder
  receiver : QueryBuilder

/-- Applies one mutator call to a builder.  Every mutator except
`final` goes through `clone` and does not assign to `this`, so the
receiver keeps its state; `final` either throws (before assigning
anything) or sets `this._final = true` and returns `this`, so returned
value and receiver coincide and are the mutated object. -/
def applyMutator (qb : QueryBuilder) : MutatorCall → Except String MutResult
  | .filterObjCall cs => .ok ⟨qb.filterObj cs, qb⟩
  | .filterQCall qc => .ok ⟨qb.filterQ qc, qb⟩
  | .excludeObjCall cs => .ok ⟨qb.excludeObj cs, qb⟩
  | .excludeQCall qc => .ok ⟨qb.excludeQ qc, qb⟩
  | .projectCall ps => .ok ⟨qb.project ps, qb⟩
  | .limitCall n => .ok ⟨qb.limit n, qb⟩
  | .offsetCall n => .ok ⟨qb.offset n, qb⟩
  | .sortCall s => .ok ⟨qb.sortM s, qb⟩
  | .aggregateCall m => .ok ⟨qb.aggregate m, qb⟩
  | .finalCall => (qb.finalM).map (fun r => ⟨r, r⟩)

/-! Helper lemmas about string assembly. -/

theorem arrJoinSep_cons (sep : String) (x : JValue) (xs : List JValue) :
    arrJoinSep sep (x :: xs)
      = (match xs with
         | [] => jelemStr x
         | _ => jelemStr x ++ sep ++ arrJoinSep sep xs) := by
  cases x <;> cases xs <;> rfl

theorem arrJoinSep_cons₂ (sep : String) (x y : JValue) (t : List JValue) :
    arrJoinSep sep (x :: y :: t) = jelemStr x ++ sep ++ arrJoinSep sep (y :: t) := by
  cases x <;> rfl

theorem joinSep_cons₂ (sep a b : String) (t : List String) :
    joinSep sep (a :: b :: t) = a ++ sep ++ joinSep sep (b :: t) := rfl

theorem quotedJoin (xs : List JValue) (h : xs ≠ []) :
    "'" ++ arrJoinSep "', '" xs ++ "'"
      = joinSep ", " (xs.map (fun x => "'" ++ jelemStr x ++ "'")) := by
  induction xs with
  | nil => exact absurd rfl h
  | cons x t ih =>
    cases t with
    | nil => simp [arrJoinSep_cons, joinSep]
    | cons y t2 =>
      have ih2 := ih (by simp)
      simp only [List.map_cons] at ih2
      rw [arrJoinSep_cons₂, List.map_cons, List.map_cons, joinSep_cons₂, ← ih2]
      apply strEq_of_data
      simp [strData_append, List.append_assoc]

/-! Claim C3. -/

/-- C3: on a model whose table is `sales`, the chain
`filter({price__gt: 100}).exclude({status: 'inactive'})` compiles to
exactly `SELECT * FROM sales WHERE ((price > 100) AND
(status != 'inactive'))`: both conditions land in the default group 0
and are AND-joined. -/
theorem claim3_filter_exclude_default_group :
    (((mkQueryBuilder ⟨"sales", Engine.mergeTree⟩ {}).filterObj
        [("price__gt", .jnum 100)]).excludeObj
        [("status", .jstr "inactive")]).buildQuery
      = "SELECT * FROM sales WHERE ((price > 100) AND (status != 'inactive'))" := by
  decide

/-! Claim C5. -/

/-- C5 counterexample: a leaf with operator `IN` and a `null` value
does NOT render as `a IS NULL` — the `IN` branch runs first and
template-stringifies the value, producing `a IN null`. -/
theorem claim5_in_null_counterexample :
    buildBaseCondition ⟨"a", .sql .inOp, .jnull, .and, none, false⟩ = "a IN null"
      ∧ ("a IN null" : String) ≠ "a IS NULL" := by
  exact ⟨rfl, by decide⟩

/-- C5 amended: a nullish value renders as `<path> IS NULL` only when
the leaf's operator is neither `IN` nor `HAS_ANY`; for `IN` the emitter
produces `<path> IN null` / `<path> IN undefined`, and for `HAS_ANY` it
produces `hasAny(<path>, null)` / `hasAny(<path>, undefined)`. -/
theorem claim5_amended_nullish (field : String) (op : Operator) (v : JValue)
    (lop : LogicalOp) (gid : Option Nat) (nested : Bool)
    (hv : v = .jnull ∨ v = .jundef)
    (hin : op ≠ .sql .inOp) (vha : op ≠ .sql .hasAny) :
    buildBaseCondition ⟨field, op, v, lop, gid, nested⟩ = field ++ " IS NULL"
    ∧ buildBaseCondition ⟨field, .sql .inOp, .jnull, lop, gid, nested⟩
        = field ++ " IN " ++ "null"
    ∧ buildBaseCondition ⟨field, .sql .inOp, .jundef, lop, gid, nested⟩
        = field ++ " IN " ++ "undefined"
    ∧ buildBaseCondition ⟨field, .sql .hasAny, .jnull, lop, gid, nested⟩
        = "hasAny(" ++ field ++ ", " ++ "null" ++ ")"
    ∧ buildBaseCondition ⟨field, .sql .hasAny, .jundef, lop, gid, nested⟩
        = "hasAny(" ++ field ++ ", " ++ "undefined" ++ ")" := by
  refine ⟨?_, rfl, rfl, rfl, rfl⟩
  rcases hv with rfl | rfl <;>
    simp [buildBaseCondition, Condition.operator, Condition.value, Condition.field,
      hin, vha, jvalueToString]

theorem claim5_amended_nullish_witness :
    buildBaseCondition ⟨"a", .sql .eq, .jnull, .and, none, false⟩ = "a IS NULL"
    ∧ buildBaseCondition ⟨"a", .sql .inOp, .jnull, .and, none, false⟩ = "a IN null"
    ∧ buildBaseCondition ⟨"a", .sql .inOp, .jundef, .and, none, false⟩ = "a IN undefined"
    ∧ buildBaseCondition ⟨"a", .sql .hasAny, .jnull, .and, none, false⟩
        = "hasAny(a, null)"
    ∧ buildBaseCondition ⟨"a", .sql .hasAny, .jundef, .and, none, false⟩
        = "hasAny(a, undefined)" :=
  claim5_amended_nullish "a" (.sql .eq) .jnull .and none false (Or.inl rfl)
    (by decide) (by decide)

/-! Claim C6. -/

/-- C6 counterexample: `IN` with the non-empty number array `[1, 2]`
renders as `a IN ('1', '2')` — the elements are single-quoted — not as
the claimed unquoted `a IN (1, 2)`. -/
theorem claim6_numbers_quoted_counterexample :
    buildBaseCondition ⟨"a", .sql .inOp, .jarr [.jnum 1, .jnum 2], .and, none, false⟩
        = "a IN ('1', '2')"
      ∧ ("a IN ('1', '2')" : String) ≠ "a IN (1, 2)" := by
  exact ⟨rfl, by decide⟩

/-- C6 amended: for a non-empty array value of an `IN` leaf, the
emitter renders a parenthesized, comma-joined list in which EVERY
element — numbers included — is single-quoted. -/
theorem claim6_amended_in_list (field : String) (xs : List JValue)
    (lop : LogicalOp) (gid : Option Nat) (nested : Bool) (h : xs ≠ []) :
    buildBaseCondition ⟨field, .sql .inOp, .jarr xs, lop, gid, nested⟩
      = field ++ " IN ("
        ++ joinSep ", " (xs.map (fun x => "'" ++ jelemStr x ++ "'")) ++ ")" := by
  have hx : buildBaseCondition ⟨field, .sql .inOp, .jarr xs, lop, gid, nested⟩
      = field ++ " IN ('" ++ arrJoinSep "', '" xs ++ "')" := by
    cases xs with
    | nil => exact absurd rfl h
    | cons x t => rfl
  rw [hx]
  apply strEq_of_data
  have hq := congrArg String.data (quotedJoin xs h)
  simp only [strData_append] at hq
  simp only [strData_append, List.append_assoc]
  rw [← hq]
  simp [List.append_assoc]

theorem claim6_amended_in_list_witness :
    buildBaseCondition ⟨"a", .sql .inOp, .jarr [.jnum 1, .jnum 2], .and, none, false⟩
      = "a" ++ " IN ("
        ++ joinSep ", " ([JValue.jnum 1, JValue.jnum 2].map
            (fun x => "'" ++ jelemStr x ++ "'")) ++ ")" :=
  claim6_amended_in_list "a" [.jnum 1, .jnum 2] .and none false (List.cons_ne_nil _ _)

/-! Claim C8. -/

/-- C8: an empty array value is handled by sentinel literals, never an
error: `IN []` renders as `<path> IN (NULL)` and `HAS_ANY []` renders
as `hasAny(<path>, [])`, for every field and every remaining condition
component. -/
theorem claim8_empty_array_sentinels (field : String) (lop : LogicalOp)
    (gid : Option Nat) (nested : Bool) :
    buildBaseCondition ⟨field, .sql .inOp, .jarr [], lop, gid, nested⟩
        = field ++ " IN (NULL)"
    ∧ buildBaseCondition ⟨field, .sql .hasAny, .jarr [], lop, gid, nested⟩
        = "hasAny(" ++ field ++ ", [])" :=
  ⟨rfl, rfl⟩

/-! Claim C9. -/

/-- C9: `sort({a: {b: -1}, c: 1})` flattens to dotted paths in key
order and renders the ORDER BY fragment `ORDER BY a.b DESC, c ASC`
(the fragment is appended to the statement with a leading space). -/
theorem claim9_sort_flattening :
    ((mkQueryBuilder ⟨"sales", Engine.mergeTree⟩ {}).sortM
        [("a", .nested [("b", .num (-1))]), ("c", .num 1)]).buildSortFragment
      = " ORDER BY a.b DESC, c ASC"
    ∧ ((mkQueryBuilder ⟨"sales", Engine.mergeTree⟩ {}).sortM
        [("a", .nested [("b", .num (-1))]), ("c", .num 1)]).buildQuery
      = "SELECT * FROM sales  ORDER BY a.b DESC, c ASC" := by
  have hsort : ((mkQueryBuilder ⟨"sales", Engine.mergeTree⟩ {}).sortM
      [("a", .nested [("b", .num (-1))]), ("c", .num 1)])._sort
      = [("a", .nested [("b", .num (-1))]), ("c", .num 1)] := rfl
  have hflat : flattenSortData
      [("a", SortVal.nested [("b", SortVal.num (-1))]), ("c", SortVal.num 1)]
      = [("a.b", -1), ("c", 1)] := by
    simp [flattenSortData, flattenSortInto, jsSetAssoc]
  have hfrag : ((mkQueryBuilder ⟨"sales", Engine.mergeTree⟩ {}).sortM
      [("a", .nested [("b", .num (-1))]), ("c", .num 1)]).buildSortFragment
      = " ORDER BY a.b DESC, c ASC" := by
    simp only [QueryBuilder.buildSortFragment, hsort, hflat]
    decide
  refine ⟨hfrag, ?_⟩
  simp only [QueryBuilder.buildQuery, hfrag]
  decide

/-! Claim C7. -/

/-- C7 counterexample: on the key `a__gt__x` the source resolver keeps
only the SECOND split segment (`gt`, recognized, giving `>`), while the
claimed algorithm — split on the FIRST delimiter occurrence, fall back
to `EQ` when the whole remaining suffix (`gt__x`) is unrecognized —
yields `EQ`.  The two disagree, refuting the claim as stated. -/
theorem claim7_first_split_counterexample :
    parseFieldAndOperator "a__gt__x" = ("a", SqlOp.gt)
    ∧ parseFieldAndOperatorFirstSplit "a__gt__x" = ("a", SqlOp.eq)
    ∧ SqlOp.gt ≠ SqlOp.eq := by
  exact ⟨by decide, by decide, by decide⟩

theorem splitOnUU_ne_nil (l : List Char) : splitOnUU l ≠ [] := by
  match l with
  | [] => simp [splitOnUU]
  | [c] => simp [splitOnUU]
  | c1 :: c2 :: rest =>
    simp only [splitOnUU]
    split
    · exact List.cons_ne_nil _ _
    · split
      · exact List.cons_ne_nil _ _
      · exact List.cons_ne_nil _ _

/-- Decompose the falsity of `hasUU` on a two-cons list into its two
components. -/
theorem hasUU_cons_cons_false {c c2 : Char} {t : List Char}
    (h : hasUU (c :: c2 :: t) = false) :
    ¬(c = '_' ∧ c2 = '_') ∧ hasUU (c2 :: t) = false := by
  simp only [hasUU, Bool.or_eq_false_iff] at h
  refine ⟨?_, h.2⟩
  intro hx
  rw [hx.1, hx.2] at h
  simp at h

theorem splitOnUU_noUU (l : List Char) (h : hasUU l = false) :
    splitOnUU l = [l] := by
  induction l with
  | nil => rfl
  | cons c t ih =>
    cases t with
    | nil => rfl
    | cons c2 t2 =>
      obtain ⟨hpair, hrest⟩ := hasUU_cons_cons_false h
      have ih2 := ih hrest
      simp only [splitOnUU]
      rw [if_neg hpair, ih2]

theorem splitOnUU_append (a b : List Char) (h1 : hasUU a = false)
    (h2 : a.getLast? ≠ some '_') :
    splitOnUU (a ++ '_' :: '_' :: b) = a :: splitOnUU b := by
  induction a with
  | nil =>
    show splitOnUU ('_' :: '_' :: b) = [] :: splitOnUU b
    simp [splitOnUU]
  | cons c a' ih =>
    cases a' with
    | nil =>
      have hc : c ≠ '_' := by
        intro hcc
        exact h2 (by simp [hcc])
      show splitOnUU (c :: '_' :: '_' :: b) = [c] :: splitOnUU b
      simp [splitOnUU, hc]
    | cons c2 a2 =>
      obtain ⟨hpair, hrest⟩ := hasUU_cons_cons_false h1
      have hlast : (c2 :: a2).getLast? ≠ some '_' := by
        rw [List.getLast?_cons_cons] at h2
        exact h2
      have ihh := ih hrest hlast
      show splitOnUU (c :: c2 :: (a2 ++ '_' :: '_' :: b)) = (c :: c2 :: a2) :: splitOnUU b
      simp only [splitOnUU]
      rw [if_neg hpair]
      rw [show (c2 :: (a2 ++ '_' :: '_' :: b)) = ((c2 :: a2) ++ '_' :: '_' :: b) from rfl]
      rw [ihh]


theorem strData_mk (l : List Char) : (⟨l⟩ : String).data = l := rfl

theorem strMk_data (s : String) : (⟨s.data⟩ : String) = s := rfl

/-- C7 amended: the resolver splits on ALL occurrences of `__` and
keeps only the first two segments: a key with no delimiter resolves to
the whole key with `EQ`; a key `base ++ "__" ++ suffix` (with a clean
`base`: no internal delimiter, not ending in an underscore) resolves to
`base` together with the operator looked up — lenient fallback to `EQ`
included — under the FIRST segment of `suffix` only, so any text after
a second delimiter is ignored (an empty first segment is falsy in JS
and also resolves to `EQ`). -/
theorem claim7_amended_split_segments :
    (∀ field : String, hasUU field.data = false →
        parseFieldAndOperator field = (field, SqlOp.eq))
    ∧ (∀ base suffix : List Char, hasUU base = false → base.getLast? ≠ some '_' →
        parseFieldAndOperator (⟨base ++ '_' :: '_' :: suffix⟩ : String)
          = ((⟨base⟩ : String),
             (FIELD_TO_SQL_OPERATOR
               (if (splitOnUU suffix).headD [] = [] then ""
                else "__" ++ (⟨(splitOnUU suffix).headD []⟩ : String))).getD
               SqlOp.eq)) := by
  constructor
  · intro field h
    simp only [parseFieldAndOperator]
    rw [splitOnUU_noUU field.data h]
    simp only [List.map_cons, List.map_nil, List.headD_cons, strMk_data]
    rfl
  · intro base suffix h1 h2
    simp only [parseFieldAndOperator, strData_mk]
    rw [splitOnUU_append base suffix h1 h2]
    obtain ⟨s0, ss, hss⟩ : ∃ s0 ss, splitOnUU suffix = s0 :: ss := by
      cases hsp : splitOnUU suffix with
      | nil => exact absurd hsp (splitOnUU_ne_nil suffix)
      | cons a l => exact ⟨a, l, rfl⟩
    rw [hss]
    simp only [List.map_cons, List.headD_cons, List.getElem?_cons_succ,
      List.getElem?_cons_zero]
    by_cases hs0 : s0 = []
    · subst hs0
      rfl
    · have hks : (⟨s0⟩ : String) ≠ "" := by
        intro hh
        exact hs0 (congrArg String.data hh)
      rw [if_neg hks, if_neg hs0]

theorem claim7_amended_split_segments_witness :
    parseFieldAndOperator "price" = ("price", SqlOp.eq)
    ∧ parseFieldAndOperator "a__bogus" = ("a", SqlOp.eq)
    ∧ parseFieldAndOperator "a__gt__x" = ("a", SqlOp.gt) := by
  refine ⟨claim7_amended_split_segments.1 "price" (by decide), ?_, ?_⟩
  · have h := claim7_amended_split_segments.2 ['a']
      ['b', 'o', 'g', 'u', 's'] (by decide) (by decide)
    exact h.trans (by decide)
  · have h := claim7_amended_split_segments.2 ['a']
      ['g', 't', '_', '_', 'x'] (by decide) (by decide)
    exact h.trans (by decide)

/-! Claim C4. -/

theorem buildCondition_leaf (f : String) (op : Operator) (v : JValue)
    (g : Option Nat) :
    buildCondition ⟨f, op, v, .and, g, false⟩
      = "(" ++ buildBaseCondition ⟨f, op, v, .and, g, false⟩ ++ ")" := by
  cases v <;> rfl

theorem buildCondition_leaf_ne_empty (f : String) (op : Operator) (v : JValue)
    (g : Option Nat) :
    buildCondition ⟨f, op, v, .and, g, false⟩ ≠ "" := by
  rw [buildCondition_leaf]
  intro h
  have h2 := congrArg String.data h
  rw [strData_append, strData_append] at h2
  simp at h2

theorem buildCondition_nested_single (jop lop : LogicalOp) (g : Option Nat)
    (l : Condition) (hl : buildCondition l ≠ "") (hlop : lop ≠ .not) :
    buildCondition ⟨"", .logical jop, .jconds [l], lop, g, true⟩
      = "(" ++ buildCondition l ++ ")" := by
  simp only [buildCondition, buildCondList, joinSep]
  rw [if_neg hl, if_neg hlop]

theorem qObjEntryConds_nonobj (counter : Nat) (k : String) (v : JValue)
    (h : v.isObjB = false) :
    qObjEntryConds counter (k, v) = [qParseConditionField counter k v] := by
  cases v <;> simp_all [JValue.isObjB, qObjEntryConds]

theorem qHandle_two_objs (lop : LogicalOp) (hnot : lop ≠ .not)
    (ka kb : String) (va vb : JValue)
    (ha : va.isObjB = false) (hb : vb.isObjB = false) :
    (qHandleConditions qNew [.obj [(ka, va)], .obj [(kb, vb)]] lop).whereConditions
      = [⟨"", .logical lop, .jconds [qParseConditionField 1 ka va], lop, some 1, true⟩,
         ⟨"", .logical lop, .jconds [qParseConditionField 1 kb vb], lop, some 1, true⟩] := by
  simp only [qHandleConditions, qNew, List.foldl, qAddCondition, List.flatMap_cons,
    List.flatMap_nil, qObjEntryConds_nonobj _ _ _ ha, qObjEntryConds_nonobj _ _ _ hb,
    List.append_nil, List.nil_append, if_neg hnot]
  rfl

/-- C4: for any two single-key plain filter objects with non-object
values, the conditions accumulated by `Q().or([A, B])` compile through
the QueryBuilder WHERE-clause builder to `((A) OR (B))`, and those of
`Q().and([A, B])` to `((A) AND (B))`, where `A` and `B` are the two
rendered leaf conditions (each already parenthesized by
`buildCondition`). -/
theorem claim4_q_or_and_compile (ka kb : String) (va vb : JValue)
    (ha : va.isObjB = false) (hb : vb.isObjB = false) :
    buildWhereClause (qOr qNew [.obj [(ka, va)], .obj [(kb, vb)]]).whereConditions
      = "(" ++ "(" ++ buildCondition (qParseConditionField 1 ka va) ++ ")"
          ++ " OR " ++ "(" ++ buildCondition (qParseConditionField 1 kb vb) ++ ")" ++ ")"
    ∧ buildWhereClause (qAnd qNew [.obj [(ka, va)], .obj [(kb, vb)]]).whereConditions
      = "(" ++ "(" ++ buildCondition (qParseConditionField 1 ka va) ++ ")"
          ++ " AND " ++ "(" ++ buildCondition (qParseConditionField 1 kb vb) ++ ")"
          ++ ")" := by
  have hlA : buildCondition (qParseConditionField 1 ka va) ≠ "" := by
    simp only [qParseConditionField]
    exact buildCondition_leaf_ne_empty _ _ _ _
  have hlB : buildCondition (qParseConditionField 1 kb vb) ≠ "" := by
    simp only [qParseConditionField]
    exact buildCondition_leaf_ne_empty _ _ _ _
  constructor
  · rw [qOr, qHandle_two_objs .or (by decide) ka kb va vb ha hb]
    simp [buildWhereClause, groupsObj, pushGroup, objectValuesNumeric, renderGroup,
      condGid, Condition.groupId, Condition.logicalOperator, LogicalOp.token, joinSep]
    rw [buildCondition_nested_single .or .or (some 1) _ hlA (by decide),
      buildCondition_nested_single .or .or (some 1) _ hlB (by decide)]
    apply strEq_of_data
    simp [strData_append, List.append_assoc]
  · rw [qAnd, qHandle_two_objs .and (by decide) ka kb va vb ha hb]
    simp [buildWhereClause, groupsObj, pushGroup, objectValuesNumeric, renderGroup,
      condGid, Condition.groupId, Condition.logicalOperator, LogicalOp.token, joinSep]
    rw [buildCondition_nested_single .and .and (some 1) _ hlA (by decide),
      buildCondition_nested_single .and .and (some 1) _ hlB (by decide)]
    apply strEq_of_data
    simp [strData_append, List.append_assoc]

theorem claim4_q_or_and_compile_witness :
    buildWhereClause (qOr qNew [.obj [("a", .jnum 1)], .obj [("b", .jnum 2)]]).whereConditions
      = "(" ++ "(" ++ buildCondition (qParseConditionField 1 "a" (.jnum 1)) ++ ")"
          ++ " OR " ++ "(" ++ buildCondition (qParseConditionField 1 "b" (.jnum 2)) ++ ")"
          ++ ")" :=
  (claim4_q_or_and_compile "a" "b" (.jnum 1) (.jnum 2) rfl rfl).1

/-! Claim C1. -/

theorem pushGroup_map_mem (f : Nat → List Condition) (K : List Nat) (g : Nat)
    (c : Condition) (hg : g ∈ K) (nd : K.Nodup) :
    pushGroup (K.map (fun k => (k, f k))) g c
      = K.map (fun k => (k, if k = g then f k ++ [c] else f k)) := by
  induction K with
  | nil => cases hg
  | cons k K ih =>
    simp only [List.map_cons, pushGroup]
    by_cases hk : k = g
    · subst hk
      rw [if_pos rfl, if_pos rfl]
      congr 1
      apply List.map_congr_left
      intro a ha
      have hak : a ≠ k := fun h => (List.nodup_cons.mp nd).1 (h ▸ ha)
      rw [if_neg hak]
    · rw [if_neg hk, if_neg hk]
      congr 1
      exact ih ((List.mem_cons.mp hg).resolve_left (fun h => hk h.symm))
        (List.nodup_cons.mp nd).2

theorem pushGroup_map_not_mem (f : Nat → List Condition) (K : List Nat) (g : Nat)
    (c : Condition) (hg : g ∉ K) :
    pushGroup (K.map (fun k => (k, f k))) g c
      = K.map (fun k => (k, f k)) ++ [(g, [c])] := by
  induction K with
  | nil => rfl
  | cons k K ih =>
    have h1 : k ≠ g := fun h => hg (h ▸ List.mem_cons_self k K)
    have h2 : g ∉ K := fun h => hg (List.mem_cons_of_mem _ h)
    simp only [List.map_cons, pushGroup, List.cons_append]
    rw [if_neg h1]
    congr 1
    exact ih h2

theorem groupsObj_spec (cs : List Condition) :
    ∃ K : List Nat, K.Nodup ∧ (∀ g, g ∈ K ↔ g ∈ cs.map condGid)
      ∧ groupsObj cs = K.map (fun g => (g, cs.filter (fun c => condGid c = g))) := by
  induction cs using List.reverseRecOn with
  | nil => exact ⟨[], List.nodup_nil, by simp, rfl⟩
  | append_singleton cs c ih =>
    obtain ⟨K, nd, hmem, heq⟩ := ih
    have hfold : groupsObj (cs ++ [c]) = pushGroup (groupsObj cs) (condGid c) c := by
      simp [groupsObj, List.foldl_append]
    by_cases hg : condGid c ∈ K
    · refine ⟨K, nd, ?_, ?_⟩
      · intro x
        simp only [List.map_append, List.mem_append, List.map_cons, List.map_nil,
          List.mem_singleton]
        rw [← hmem x]
        constructor
        · exact Or.inl
        · rintro (h | rfl)
          · exact h
          · exact hg
      · rw [hfold, heq, pushGroup_map_mem _ _ _ _ hg nd]
        apply List.map_congr_left
        intro k hk
        by_cases hkg : k = condGid c
        · subst hkg
          rw [if_pos rfl]
          simp [List.filter_append, List.filter_cons]
        · have hck : ¬(condGid c = k) := fun h => hkg h.symm
          rw [if_neg hkg]
          simp [List.filter_append, List.filter_cons, hck]
    · refine ⟨K ++ [condGid c], ?_, ?_, ?_⟩
      · refine List.Nodup.append nd (List.nodup_singleton _) ?_
        intro a ha hb
        rw [List.mem_singleton] at hb
        exact hg (hb ▸ ha)
      · intro x
        simp only [List.mem_append, List.mem_singleton, List.map_append,
          List.map_cons, List.map_nil]
        rw [← hmem x]
      · rw [hfold, heq, pushGroup_map_not_mem _ _ _ _ hg]
        rw [List.map_append]
        congr 1
        · apply List.map_congr_left
          intro k hk
          have hck : ¬(condGid c = k) := fun h => hg (h ▸ hk)
          simp [List.filter_append, List.filter_cons, hck]
        · have hnil : cs.filter (fun c2 => condGid c2 = condGid c) = [] := by
            rw [List.filter_eq_nil_iff]
            intro a ha
            simp only [decide_eq_true_eq]
            intro hEq
            exact (fun h => hg ((hmem _).mpr h)) (hEq ▸ List.mem_map_of_mem condGid ha)
          simp [List.filter_append, List.filter_cons, hnil]

theorem orderedInsert_pairs_map (f : Nat → List Condition) (k : Nat) (L : List Nat) :
    List.orderedInsert (fun a b : Nat × List Condition => a.1 ≤ b.1) (k, f k)
        (L.map (fun g => (g, f g)))
      = (List.orderedInsert (fun a b : Nat => a ≤ b) k L).map (fun g => (g, f g)) := by
  induction L with
  | nil => rfl
  | cons b L ih =>
    simp only [List.map_cons, List.orderedInsert]
    by_cases h : k ≤ b
    · simp [h]
    · simp [h, ih]

theorem insertionSort_pairs_map (f : Nat → List Condition) (K : List Nat) :
    List.insertionSort (fun a b : Nat × List Condition => a.1 ≤ b.1)
        (K.map (fun g => (g, f g)))
      = (List.insertionSort (fun a b : Nat => a ≤ b) K).map (fun g => (g, f g)) := by
  induction K with
  | nil => rfl
  | cons k K ih =>
    simp only [List.map_cons, List.insertionSort, ih, orderedInsert_pairs_map]

theorem insertionSort_nat_eq_of_perm (K1 K2 : List Nat) (h : K1.Perm K2) :
    List.insertionSort (fun a b : Nat => a ≤ b) K1
      = List.insertionSort (fun a b : Nat => a ≤ b) K2 :=
  List.eq_of_perm_of_sorted
    ((List.perm_insertionSort _ _).trans (h.trans (List.perm_insertionSort _ _).symm))
    (List.sorted_insertionSort _ _) (List.sorted_insertionSort _ _)

/-- C1 amended: `buildWhereClause` partitions the accumulated
conditions by GroupID (missing GroupIDs defaulting to 0); a single
group renders verbatim and several groups are OR-joined inside one
pair of parentheses; but the groups are enumerated by `Object.values`
in ASCENDING GroupID order — the ECMAScript integer-key order — not in
the first-seen (insertion) order of the condition list. -/
theorem claim1_amended_groups_ascending (conditions : List Condition) :
    buildWhereClause conditions
      = (let gids := List.insertionSort (fun a b : Nat => a ≤ b)
            ((conditions.map condGid).dedup)
         let groupClauses := gids.map (fun g =>
            renderGroup (conditions.filter (fun c => condGid c = g)))
         if 1 < groupClauses.length then "(" ++ joinSep " OR " groupClauses ++ ")"
         else groupClauses.headD "") := by
  obtain ⟨K, nd, hmem, heq⟩ := groupsObj_spec conditions
  have hperm : K.Perm ((conditions.map condGid).dedup) :=
    (List.perm_ext_iff_of_nodup nd (List.nodup_dedup _)).mpr
      (fun a => (hmem a).trans (List.mem_dedup).symm)
  have hvals : objectValuesNumeric (groupsObj conditions)
      = (List.insertionSort (fun a b : Nat => a ≤ b)
          ((conditions.map condGid).dedup)).map
            (fun g => conditions.filter (fun c => condGid c = g)) := by
    rw [heq, objectValuesNumeric, insertionSort_pairs_map,
      insertionSort_nat_eq_of_perm _ _ hperm, List.map_map]
    rfl
  by_cases hnil : conditions = []
  · subst hnil
    rfl
  · have hne : conditions.isEmpty = false := by
      cases conditions with
      | nil => exact absurd rfl hnil
      | cons a l => rfl
    simp only [buildWhereClause, hne, Bool.false_eq_true, if_false, hvals,
      List.map_map]
    rfl

/-- C1 counterexample: on the reachable condition list holding first a
condition of group 1 and then one with no GroupID (group 0) — for
instance from `filter(Q().or(...))` followed by a plain `filter` — the
source renders group 0 FIRST, re-sorting the groups into ascending
GroupID order, while the claimed insertion-order rendering keeps group
1 first.  The two outputs differ. -/
theorem claim1_insertion_order_counterexample :
    buildWhereClause
        [⟨"a", .sql .eq, .jnum 1, .and, some 1, false⟩,
         ⟨"b", .sql .eq, .jnum 2, .and, none, false⟩]
      = "((b = 2) OR (a = 1))"
    ∧ buildWhereClauseInsertionOrder
        [⟨"a", .sql .eq, .jnum 1, .and, some 1, false⟩,
         ⟨"b", .sql .eq, .jnum 2, .and, none, false⟩]
      = "((a = 1) OR (b = 2))"
    ∧ ("((b = 2) OR (a = 1))" : String) ≠ "((a = 1) OR (b = 2))" := by
  exact ⟨by decide, by decide, by decide⟩

/-! Claim C2. -/

/-- C2 counterexample: `final()` is not copy-on-write.  On a
ReplacingMergeTree table it assigns `this._final = true` and returns
the receiver itself, so after the call the receiver's own compiled
query text has changed (it gained the `FINAL` modifier). -/
theorem claim2_final_mutates_counterexample :
    (applyMutator (mkQueryBuilder ⟨"sales", Engine.replacingMergeTree⟩ {})
        .finalCall).map (fun r => r.receiver.buildQuery)
      = Except.ok "SELECT * FROM sales FINAL "
    ∧ (mkQueryBuilder ⟨"sales", Engine.replacingMergeTree⟩ {}).buildQuery
      = "SELECT * FROM sales "
    ∧ ("SELECT * FROM sales FINAL " : String) ≠ "SELECT * FROM sales " := by
  exact ⟨rfl, rfl, by decide⟩

/-- C2 amended: every mutator of the claim's list EXCEPT `final` —
that is `filter`, `exclude`, `project`, `limit`, `offset`, `sort` and
`aggregate` — goes through `clone` and leaves the receiver untouched,
so the receiver's compiled query text is unchanged; `final` instead
mutates the receiver in place (and the clone taken by the other
mutators also resets the receiver's FINAL flag in the copy). -/
theorem claim2_amended_mutators_except_final (qb : QueryBuilder)
    (call : MutatorCall) (r : MutResult) (hcall : call ≠ .finalCall)
    (h : applyMutator qb call = .ok r) :
    r.receiver = qb ∧ r.receiver.buildQuery = qb.buildQuery := by
  cases call with
  | finalCall => exact absurd rfl hcall
  | filterObjCall cs =>
    simp only [applyMutator, Except.ok.injEq] at h
    exact ⟨by rw [← h], by rw [← h]⟩
  | filterQCall qc =>
    simp only [applyMutator, Except.ok.injEq] at h
    exact ⟨by rw [← h], by rw [← h]⟩
  | excludeObjCall cs =>
    simp only [applyMutator, Except.ok.injEq] at h
    exact ⟨by rw [← h], by rw [← h]⟩
  | excludeQCall qc =>
    simp only [applyMutator, Except.ok.injEq] at h
    exact ⟨by rw [← h], by rw [← h]⟩
  | projectCall ps =>
    simp only [applyMutator, Except.ok.injEq] at h
    exact ⟨by rw [← h], by rw [← h]⟩
  | limitCall n =>
    simp only [applyMutator, Except.ok.injEq] at h
    exact ⟨by rw [← h], by rw [← h]⟩
  | offsetCall n =>
    simp only [applyMutator, Except.ok.injEq] at h
    exact ⟨by rw [← h], by rw [← h]⟩
  | sortCall s =>
    simp only [applyMutator, Except.ok.injEq] at h
    exact ⟨by rw [← h], by rw [← h]⟩
  | aggregateCall m =>
    simp only [applyMutator, Except.ok.injEq] at h
    exact ⟨by rw [← h], by rw [← h]⟩

theorem claim2_amended_mutators_except_final_witness :
    (MutResult.mk ((mkQueryBuilder ⟨"sales", Engine.mergeTree⟩ {}).limit 5)
        (mkQueryBuilder ⟨"sales", Engine.mergeTree⟩ {})).receiver.buildQuery
      = (mkQueryBuilder ⟨"sales", Engine.mergeTree⟩ {}).buildQuery :=
  (claim2_amended_mutators_except_final
    (mkQueryBuilder ⟨"sales", Engine.mergeTree⟩ {}) (.limitCall 5)
    (MutResult.mk ((mkQueryBuilder ⟨"sales", Engine.mergeTree⟩ {}).limit 5)
      (mkQueryBuilder ⟨"sales", Engine.mergeTree⟩ {}))
    (by intro hx; cases hx) rfl).2

/-! Claim C10. -/

/-- C10 counterexample: on a builder whose FINAL flag is set (obtained
from a successful `final()` call), `limit(0)` is NOT observationally
identical to never having called the mutator: `clone` does not copy
`_final`, so the compiled statement loses the `FINAL` modifier. -/
theorem claim10_final_reset_counterexample :
    (Except.map (fun bF => ((bF.limit 0).buildQuery, bF.buildQuery))
        (mkQueryBuilder ⟨"sales", Engine.replacingMergeTree⟩ {}).finalM)
      = Except.ok ("SELECT * FROM sales ", "SELECT * FROM sales FINAL ")
    ∧ ("SELECT * FROM sales " : String) ≠ "SELECT * FROM sales FINAL " := by
  exact ⟨rfl, by decide⟩

/-- C10 amended: `limit(0)` and `offset(0)` emit no LIMIT / OFFSET
clause at all (the stored value is falsy); and provided the builder's
FINAL flag is unset — any clone resets it — and its projection is
non-empty (the constructor guarantees this), the compiled statement
is identical to that of the same builder with no stored limit
(respectively with the default offset 0). -/
theorem claim10_amended_zero_falsy (qb : QueryBuilder)
    (hfin : qb._final = false) (hproj : qb._project ≠ "") :
    (qb.limit 0).limitClause = ""
    ∧ (qb.offset 0).offsetClause = ""
    ∧ (qb.limit 0).buildQuery = QueryBuilder.buildQuery { qb with _limit := none }
    ∧ (qb.offset 0).buildQuery = QueryBuilder.buildQuery { qb with _offset := 0 } := by
  obtain ⟨m, w, e, off, lim, proj, fin, srt⟩ := qb
  simp only at hfin hproj
  subst hfin
  have hlim : QueryBuilder.limit ⟨m, w, e, off, lim, proj, false, srt⟩ 0
      = ⟨m, w, e, off, some 0, proj, false, srt⟩ := by
    simp [QueryBuilder.limit, QueryBuilder.clone, mkQueryBuilder, hproj]
  have hoff : QueryBuilder.offset ⟨m, w, e, off, lim, proj, false, srt⟩ 0
      = ⟨m, w, e, 0, lim, proj, false, srt⟩ := by
    simp [QueryBuilder.offset, QueryBuilder.clone, mkQueryBuilder, hproj]
  refine ⟨?_, ?_, ?_, ?_⟩
  · rw [hlim]
    rfl
  · rw [hoff]
    rfl
  · rw [hlim]
    simp [QueryBuilder.buildQuery, QueryBuilder.limitClause, limitTruthy,
      QueryBuilder.tableName, QueryBuilder.buildSortFragment,
      QueryBuilder.offsetClause]
  · rw [hoff]

theorem claim10_amended_zero_falsy_witness :
    ((mkQueryBuilder ⟨"sales", Engine.mergeTree⟩ {}).limit 0).limitClause = ""
    ∧ ((mkQueryBuilder ⟨"sales", Engine.mergeTree⟩ {}).offset 0).offsetClause = ""
    ∧ ((mkQueryBuilder ⟨"sales", Engine.mergeTree⟩ {}).limit 0).buildQuery
        = QueryBuilder.buildQuery
            { mkQueryBuilder ⟨"sales", Engine.mergeTree⟩ {} with _limit := none }
    ∧ ((mkQueryBuilder ⟨"sales", Engine.mergeTree⟩ {}).offset 0).buildQuery
        = QueryBuilder.buildQuery
            { mkQueryBuilder ⟨"sales", Engine.mergeTree⟩ {} with _offset := 0 } :=
  claim10_amended_zero_falsy (mkQueryBuilder ⟨"sales", Engine.mergeTree⟩ {}) rfl
    (by decide)

end ChOrm
